import Mathlib

/-!
Verification of the minishell core (tokenize → parse → execute) against its
natural-language specification.  The definitions below are a shallow
embedding of the C++ sources:

* `Tokenizer.tokenizeWithPipesAndExpansion`, `expandVarAt`
  — src/src/shell.cpp (inline tokenizer and its `expandVarAt` lambda,
    identical to `Expander::expandAt` in src/src/expander.cpp);
* `splitStages` — the stage-splitting loop inside `Shell::executeLine`;
* `Lexer.tokenize`, `Parser.parseTokens` — src/src/lexer.cpp, src/src/parser.cpp;
* `Shell.executeLine`, `Shell.executeArgv`, builtins, `runExternal`,
  `findInPath`, `tryHandleAssignmentsOnly` — src/src/shell.cpp.

Strings are modelled as `List Char`.  OS effects (fork/pipe/wait results,
the file system, the ambient search path) are oracle parameters (`Sys`,
`PipeSys`); everything deterministic is translated directly.
-/

namespace Minishell

/-- Shorthand for C++ string literals in the model. -/
def str (s : String) : List Char := s.data

/-- C `isspace` on the default locale restricted to ASCII, as used by the
inline tokenizer (`std::isspace`). -/
def isspaceC (c : Char) : Bool :=
  c = ' ' || c = '\t' || c = '\n' || c = '\x0b' || c = '\x0c' || c = '\r'

/-- C `isalpha` (ASCII letters). -/
def isalphaC (c : Char) : Bool :=
  ('a' ≤ c && c ≤ 'z') || ('A' ≤ c && c ≤ 'Z')

/-- C `isdigit`. -/
def isdigitC (c : Char) : Bool :=
  '0' ≤ c && c ≤ '9'

/-- C `isalnum`. -/
def isalnumC (c : Char) : Bool :=
  isalphaC c || isdigitC c

/-- The `isAlphaUnd` lambda of `expandVarAt` / `isValidVarName`. -/
def isAlphaUnd (c : Char) : Bool :=
  isalphaC c || c = '_'

/-- The `isAlnumUnd` lambda of `expandVarAt` / `isValidVarName`. -/
def isAlnumUnd (c : Char) : Bool :=
  isalnumC c || c = '_'

/-- Environment: `std::map<std::string,std::string>` modelled as an
association list with unique keys maintained by `envSet`. -/
abbrev Env := List (List Char × List Char)

/-- `Environment::get`: exact-match lookup. -/
def envGet : Env → List Char → Option (List Char)
  | [], _ => none
  | (k, v) :: rest, n => if k = n then some v else envGet rest n

/-- `Environment::set`: overwrite the binding if present, insert otherwise. -/
def envSet : Env → List Char → List Char → Env
  | [], n, v => [(n, v)]
  | (k, w) :: rest, n, v =>
      if k = n then (n, v) :: rest else (k, w) :: envSet rest n v

/-- Variable expansion at a `$` (the `expandVarAt` lambda in
`Tokenizer::tokenizeWithPipesAndExpansion`, and identically
`Expander::expandAt`).  `cur` is the pending word, `rest` the input after
the `$`.  Returns the new pending word and the remaining input. -/
def expandVarAt (env : Env) (cur : List Char) (rest : List Char) :
    List Char × List Char :=
  match rest with
  | [] => (cur ++ ['$'], [])
  | c :: cs =>
      if isAlphaUnd c then
        let name := c :: cs.takeWhile isAlnumUnd
        let cur2 :=
          match envGet env name with
          | some v => cur ++ v
          | none => cur
        (cur2, cs.dropWhile isAlnumUnd)
      else (cur ++ ['$'], c :: cs)

/-- Scanner state of both tokenizers. -/
inductive QState
  | normal
  | inSingle
  | inDouble
deriving DecidableEq, Repr

/-- The `flush` lambda: a pending word is emitted only when non-empty. -/
def emit (cur : List Char) (ts : List (List Char)) : List (List Char) :=
  if cur = [] then ts else cur :: ts

/-- Core loop of `Tokenizer::tokenizeWithPipesAndExpansion`
(src/src/shell.cpp).  `none` models the thrown "unterminated quote". -/
def tokWPE (env : Env) (st : QState) (cur : List Char) (s : List Char) :
    Option (List (List Char)) :=
  match st, s with
  | .normal, [] => some (emit cur [])
  | .inSingle, [] => none
  | .inDouble, [] => none
  | .normal, c :: cs =>
      if c = '|' then
        (tokWPE env .normal [] cs).map (fun ts => emit cur (['|'] :: ts))
      else if isspaceC c then
        (tokWPE env .normal [] cs).map (emit cur)
      else if c = '\'' then tokWPE env .inSingle cur cs
      else if c = '"' then tokWPE env .inDouble cur cs
      else if c = '$' then
        let p := expandVarAt env cur cs
        tokWPE env .normal p.1 p.2
      else tokWPE env .normal (cur ++ [c]) cs
  | .inSingle, c :: cs =>
      if c = '\'' then tokWPE env .normal cur cs
      else tokWPE env .inSingle (cur ++ [c]) cs
  | .inDouble, c :: cs =>
      if c = '"' then tokWPE env .normal cur cs
      else if c = '$' then
        let p := expandVarAt env cur cs
        tokWPE env .inDouble p.1 p.2
      else tokWPE env .inDouble (cur ++ [c]) cs
termination_by s.length
decreasing_by
  all_goals simp only [List.length_cons]
  any_goals exact Nat.lt_succ_self _
  all_goals
    refine Nat.lt_succ_of_le ?_
    show (expandVarAt env cur cs).2.length ≤ cs.length
    cases cs with
    | nil => simp [expandVarAt]
    | cons c cs2 =>
        by_cases h : isAlphaUnd c
        · simp only [expandVarAt, h, if_pos]
          exact Nat.le_succ_of_le ((List.dropWhile_sublist _).length_le)
        · simp [expandVarAt, h]

/-- `Tokenizer::tokenizeWithPipesAndExpansion`: the inline front end used
by `Shell::executeLine`.  Pipes appear as the bare token `"|"`. -/
def tokenizeWithPipesAndExpansion (env : Env) (line : List Char) :
    Option (List (List Char)) :=
  tokWPE env .normal [] line

/-- Stage-splitting loop inside `Shell::executeLine` (src/src/shell.cpp):
`cur` is the stage being accumulated; `none` models the
"empty command in pipeline" early return. -/
def splitStagesAux (cur : List (List Char)) :
    List (List Char) → Option (List (List (List Char)))
  | [] => some (if cur = [] then [] else [cur])
  | t :: ts =>
      if t = ['|'] then
        if cur = [] then none
        else (splitStagesAux [] ts).map (fun ss => cur :: ss)
      else splitStagesAux (cur ++ [t]) ts

/-- Stage splitting as performed by `Shell::executeLine`. -/
def splitStages (ts : List (List Char)) : Option (List (List (List Char))) :=
  splitStagesAux [] ts

/-- Value pair returned by every execution path (`struct ExecResult`). -/
structure ExecResult where
  exitCode : Int
  shouldExit : Bool
deriving DecidableEq, Repr

/-- Outcome of one `waitpid` call, as observed by the parent: the call
itself failed, the child exited normally (`WIFEXITED`, carrying
`WEXITSTATUS`), the child was killed by a signal (`WIFSIGNALED`, carrying
`WTERMSIG`), or neither macro matched. -/
inductive WaitOutcome
  | waitFail
  | exited (code : Nat)
  | signaled (sig : Nat)
  | other
deriving DecidableEq, Repr

/-- `statusToExitCode` (src/src/executor.cpp), extended to a failed
`waitpid` which yields 127 on every path of the sources. -/
def waitCode : WaitOutcome → Int
  | .waitFail => 127
  | .exited c => (c : Int)
  | .signaled s => 128 + (s : Int)
  | .other => 127

/-- Wait loop of `Shell::executeLine` (src/src/shell.cpp lines 403-423):
a failed `waitpid` sets `lastExitCode = 127` unconditionally; a decoded
status is recorded only at the last index. -/
def shellWaitLoop : Int → List WaitOutcome → Int
  | acc, [] => acc
  | _, .waitFail :: ws => shellWaitLoop 127 ws
  | acc, .exited c :: ws =>
      shellWaitLoop (if ws = [] then (c : Int) else acc) ws
  | acc, .signaled s :: ws =>
      shellWaitLoop (if ws = [] then 128 + (s : Int) else acc) ws
  | acc, .other :: ws => shellWaitLoop (if ws = [] then 127 else acc) ws

/-- `waitAll` (src/src/executor.cpp): the decoded status — including a
failed `waitpid` — is recorded only at the last index. -/
def waitAll : Int → List WaitOutcome → Int
  | acc, [] => acc
  | acc, w :: ws => waitAll (if ws = [] then waitCode w else acc) ws

/-- Observable effects of running one line or one stage in the parent
process: the returned result, the data written to the output and error
sinks (one entry per write), and the number of children forked. -/
structure RunOut where
  result : ExecResult
  outs : List (List Char)
  errs : List (List Char)
  spawned : Nat
deriving DecidableEq, Repr

/-- Oracle for the OS facts consulted by single-stage execution: which
paths are executable files, the ambient `PATH` fallback (`std::getenv`),
the outcome of `fork`/`waitpid` in `runExternal`, the current directory
(`pwd`), file contents (`cat`/`wc`), data on standard input, and the
text produced by `errnoMessage()`. -/
structure Sys where
  isExec : List Char → Bool
  ambientPath : Option (List Char)
  forkOk : Bool
  extWait : WaitOutcome
  cwd : Option (List Char)
  cwdErr : List Char
  readFile : List Char → Option (List Char)
  stdinData : List Char
  errnoMsg : List Char

/-- Oracle for the OS calls made by the multi-stage pipeline path: the
two collector `pipe` calls, the per-stage `pipe` and `fork` calls, the
per-child `waitpid` outcome, and the bytes drained from the collector
pipes. -/
structure PipeSys where
  errPipeOk : Bool
  outPipeOk : Bool
  nextPipeOk : Nat → Bool
  forkOk : Nat → Bool
  waits : Nat → WaitOutcome
  drainOut : List Char
  drainErr : List Char
  errnoMsg : List Char

/-- `isValidVarName` (src/src/shell.cpp). -/
def isValidVarName : List Char → Bool
  | [] => false
  | c :: rest => isAlphaUnd c && rest.all isAlnumUnd

/-- Split a string at its first `=` (`a.find('=')` followed by the two
`substr` calls).  `none` when there is no `=` at all. -/
def splitFirstEq : List Char → Option (List Char × List Char)
  | [] => none
  | c :: rest =>
      if c = '=' then some ([], rest)
      else
        match splitFirstEq rest with
        | some (n, v) => some (c :: n, v)
        | none => none

/-- Splitting as used by `tryHandleAssignmentsOnly`: `pos == npos` and
`pos == 0` both make the argument a non-assignment. -/
def splitAssign (a : List Char) : Option (List Char × List Char) :=
  match splitFirstEq a with
  | some ([], _) => none
  | some (n, v) => some (n, v)
  | none => none

/-- Result of the first (validation) loop of `tryHandleAssignmentsOnly`:
all arguments are valid assignments, or some argument is not of the form
`NAME=value` (silent), or some name is syntactically invalid (reported). -/
inductive AssignCheck
  | ok
  | notAssign
  | invalidName (n : List Char)
deriving DecidableEq, Repr

/-- First loop of `tryHandleAssignmentsOnly`: validate every argument
before anything is applied, stopping at the first offender. -/
def checkAssigns : List (List Char) → AssignCheck
  | [] => .ok
  | a :: rest =>
      match splitAssign a with
      | none => .notAssign
      | some (n, _) =>
          if isValidVarName n then checkAssigns rest else .invalidName n

/-- Second loop of `tryHandleAssignmentsOnly`: apply every assignment. -/
def applyAssigns (env : Env) : List (List Char) → Env
  | [] => env
  | a :: rest =>
      match splitAssign a with
      | some (n, v) => applyAssigns (envSet env n v) rest
      | none => applyAssigns env rest

/-- `Shell::tryHandleAssignmentsOnly`: `some env2` models `return true`
with the updated environment; `none` models `return false` (the line is
then executed as a command).  The second component is the error output. -/
def tryHandleAssignmentsOnly (env : Env) (argv : List (List Char)) :
    Option Env × List (List Char) :=
  match checkAssigns argv with
  | .ok => (some (applyAssigns env argv), [])
  | .notAssign => (none, [])
  | .invalidName n =>
      (none, [str "assignment error: invalid variable name: " ++ n ++ ['\n']])

/-- `Shell::builtinExit`. -/
def builtinExit : RunOut :=
  ⟨⟨0, true⟩, [], [], 0⟩

/-- `Shell::builtinPwd` with the current directory (or the message of the
thrown exception) supplied by the oracle. -/
def builtinPwd (sys : Sys) : RunOut :=
  match sys.cwd with
  | some p => ⟨⟨0, false⟩, [p ++ ['\n']], [], 0⟩
  | none => ⟨⟨1, false⟩, [], [str "pwd: " ++ sys.cwdErr ++ ['\n']], 0⟩

/-- Joining loop of `Shell::builtinEcho`: arguments after the first,
separated by single spaces. -/
def echoJoin : List (List Char) → List Char
  | [] => []
  | [a] => a
  | a :: rest => a ++ ' ' :: echoJoin rest

/-- `Shell::builtinEcho`. -/
def builtinEcho (argv : List (List Char)) : RunOut :=
  ⟨⟨0, false⟩, [echoJoin (argv.drop 1) ++ ['\n']], [], 0⟩

/-- `Shell::builtinCat`: no argument reads standard input, one argument
reads the named file, anything else is a usage error. -/
def builtinCat (sys : Sys) (argv : List (List Char)) : RunOut :=
  match argv with
  | [_] => ⟨⟨0, false⟩, [sys.stdinData], [], 0⟩
  | [_, f] =>
      match sys.readFile f with
      | none => ⟨⟨1, false⟩, [], [str "cat: cannot open file: " ++ f ++ ['\n']], 0⟩
      | some d => ⟨⟨0, false⟩, [d], [], 0⟩
  | _ => ⟨⟨2, false⟩, [], [str "cat: usage: cat <FILE>\n"], 0⟩

/-- Counting loop of `Shell::builtinWc` over the input bytes. -/
def wcLoop (inWord : Bool) (lines words bytes : Nat) :
    List Char → Nat × Nat × Nat
  | [] => (lines, words, bytes)
  | c :: cs =>
      let lines2 := if c = '\n' then lines + 1 else lines
      if isspaceC c then wcLoop false lines2 words (bytes + 1) cs
      else if inWord then wcLoop true lines2 words (bytes + 1) cs
      else wcLoop true lines2 (words + 1) (bytes + 1) cs

/-- Output line of `wc` for the given data. -/
def wcOut (d : List Char) : RunOut :=
  match wcLoop false 0 0 0 d with
  | (lines, words, bytes) =>
      ⟨⟨0, false⟩,
       [(Nat.repr lines).data ++ ' ' :: (Nat.repr words).data ++
          ' ' :: (Nat.repr bytes).data ++ ['\n']], [], 0⟩

/-- `Shell::builtinWc`. -/
def builtinWc (sys : Sys) (argv : List (List Char)) : RunOut :=
  match argv with
  | [_, f] =>
      match sys.readFile f with
      | none => ⟨⟨1, false⟩, [], [str "wc: cannot open file: " ++ f ++ ['\n']], 0⟩
      | some d => wcOut d
  | [_] => wcOut sys.stdinData
  | _ => ⟨⟨2, false⟩, [], [str "wc: usage: wc <FILE>\n"], 0⟩

/-- Splitting of the `PATH` value by `std::getline(ss, dir, ':')`: an
empty input yields no directory, a trailing `:` yields no trailing empty
directory. -/
def splitColonAux (acc : List Char) : List Char → List (List Char)
  | [] => [acc]
  | c :: rest =>
      if c = ':' then
        acc :: (match rest with | [] => [] | _ :: _ => splitColonAux [] rest)
      else splitColonAux (acc ++ [c]) rest

/-- Colon splitting of a whole `PATH` string. -/
def splitColon : List Char → List (List Char)
  | [] => []
  | c :: rest => splitColonAux [] (c :: rest)

/-- `std::filesystem::path(dir) / file` rendered back to a string, for a
relative `file` with no separator in it. -/
def joinPath (dir file : List Char) : List Char :=
  match dir.getLast? with
  | some '/' => dir ++ file
  | _ => dir ++ '/' :: file

/-- Directory scan of `findInPath`: an empty directory entry is replaced
by `"."`, and the first executable candidate wins. -/
def searchPath (isExec : List Char → Bool) (file : List Char) :
    List (List Char) → Option (List Char)
  | [] => none
  | d :: ds =>
      let dir := if d = [] then ['.'] else d
      let candidate := joinPath dir file
      if isExec candidate then some candidate else searchPath isExec file ds

/-- `findInPath` (src/src/shell.cpp): a name containing `/` is checked
directly as a path; otherwise the colon-separated list from the
Environment's `PATH` is searched, falling back to the ambient process
`PATH` when the Environment has none. -/
def findInPath (isExec : List Char → Bool) (ambient : Option (List Char))
    (file : List Char) (env : Env) : Option (List Char) :=
  if '/' ∈ file then
    if isExec file then some file else none
  else
    let pathValue :=
      match envGet env (str "PATH") with
      | some v => v
      | none =>
          match ambient with
          | some p => p
          | none => []
    searchPath isExec file (splitColon pathValue)

/-- `Shell::runExternal`: resolve, fork, exec, wait.  The child's `execve`
is invisible to the parent except through the wait outcome supplied by
the oracle. -/
def runExternal (sys : Sys) (env : Env) (argv : List (List Char)) : RunOut :=
  let cmd := argv.headD []
  match findInPath sys.isExec sys.ambientPath cmd env with
  | none => ⟨⟨127, false⟩, [], [cmd ++ str ": command not found\n"], 0⟩
  | some _ =>
      if sys.forkOk then
        match sys.extWait with
        | .waitFail =>
            ⟨⟨127, false⟩, [],
             [cmd ++ str ": waitpid failed: " ++ sys.errnoMsg ++ ['\n']], 1⟩
        | .exited c => ⟨⟨(c : Int), false⟩, [], [], 1⟩
        | .signaled s => ⟨⟨128 + (s : Int), false⟩, [], [], 1⟩
        | .other => ⟨⟨127, false⟩, [], [], 1⟩
      else
        ⟨⟨127, false⟩, [],
         [cmd ++ str ": fork failed: " ++ sys.errnoMsg ++ ['\n']], 0⟩

/-- `Shell::executeArgv`: builtin dispatch by the first argument, falling
back to external execution.  The sources index `argv[0]` which callers
guarantee to exist (stages are never empty); the `[]` case is dead. -/
def executeArgv (sys : Sys) (env : Env) (argv : List (List Char)) : RunOut :=
  match argv with
  | [] => ⟨⟨0, false⟩, [], [], 0⟩
  | cmd :: _ =>
      if cmd = str "cat" then builtinCat sys argv
      else if cmd = str "echo" then builtinEcho argv
      else if cmd = str "wc" then builtinWc sys argv
      else if cmd = str "pwd" then builtinPwd sys
      else if cmd = str "exit" then builtinExit
      else runExternal sys env argv

/-- Error line written on a failed `pipe` call. -/
def pipeFailLine (m : List Char) : List Char :=
  str "pipe: " ++ m ++ ['\n']

/-- Error line written on a failed `fork` call in the pipeline path. -/
def forkFailLine (m : List Char) : List Char :=
  str "fork failed: " ++ m ++ ['\n']

/-- Error line written on a failed `waitpid` call in the pipeline path. -/
def waitFailLine (m : List Char) : List Char :=
  str "waitpid failed: " ++ m ++ ['\n']

/-- Spawning loop of the multi-stage path in `Shell::executeLine`: for
each stage, allocate a connecting pipe unless it is the last stage, then
fork.  The first failure aborts and reports how many children were
already created; `none` means every stage was spawned.  The first
argument counts the remaining iterations, the second is the index `i`. -/
def spawnRem (ps : PipeSys) (n : Nat) : Nat → Nat → Option (List Char × Nat)
  | 0, _ => none
  | k + 1, i =>
      if i + 1 = n then
        if ps.forkOk i then spawnRem ps n k (i + 1)
        else some (forkFailLine ps.errnoMsg, i)
      else
        if ps.nextPipeOk i then
          if ps.forkOk i then spawnRem ps n k (i + 1)
          else some (forkFailLine ps.errnoMsg, i)
        else some (pipeFailLine ps.errnoMsg, i)

/-- Per-child "waitpid failed" messages, in wait order. -/
def waitFailMsgs (ps : PipeSys) (n : Nat) : List (List Char) :=
  (List.range n).filterMap fun i =>
    match ps.waits i with
    | .waitFail => some (waitFailLine ps.errnoMsg)
    | _ => none

/-- Multi-stage path of `Shell::executeLine` for `n ≥ 2` stages: allocate
the error and output collector pipes, spawn every stage, drain both
collectors, then run the wait loop.  Every return carries
`shouldExit = false`. -/
def runPipeline (ps : PipeSys) (n : Nat) : RunOut :=
  if ps.errPipeOk then
    if ps.outPipeOk then
      match spawnRem ps n n 0 with
      | some (msg, i) => ⟨⟨127, false⟩, [], [msg], i⟩
      | none =>
          ⟨⟨shellWaitLoop 0 ((List.range n).map ps.waits), false⟩,
           [ps.drainOut], ps.drainErr :: waitFailMsgs ps n, n⟩
    else ⟨⟨127, false⟩, [], [pipeFailLine ps.errnoMsg], 0⟩
  else ⟨⟨127, false⟩, [], [pipeFailLine ps.errnoMsg], 0⟩

/-- `Shell::executeLine` (src/src/shell.cpp): tokenize, split into
stages, then dispatch — assignments-only line, single-stage in-process
execution, or the multi-process pipeline.  Returns the environment after
the call together with the observable effects. -/
def executeLine (sys : Sys) (ps : PipeSys) (env : Env) (line : List Char) :
    Env × RunOut :=
  match tokenizeWithPipesAndExpansion env line with
  | none => (env, ⟨⟨2, false⟩, [], [str "parse error: unterminated quote\n"], 0⟩)
  | some toks =>
      if toks = [] then (env, ⟨⟨0, false⟩, [], [], 0⟩)
      else
        match splitStages toks with
        | none =>
            (env,
             ⟨⟨2, false⟩, [], [str "parse error: empty command in pipeline\n"], 0⟩)
        | some stages =>
            if stages = [] then (env, ⟨⟨0, false⟩, [], [], 0⟩)
            else
              match stages with
              | [argv] =>
                  match tryHandleAssignmentsOnly env argv with
                  | (some env2, msgs) => (env2, ⟨⟨0, false⟩, [], msgs, 0⟩)
                  | (none, msgs) =>
                      let r := executeArgv sys env argv
                      (env, ⟨r.result, r.outs, msgs ++ r.errs, r.spawned⟩)
              | _ => (env, runPipeline ps stages.length)

/-- Tagged token of the class-based front end (`struct Token` in
src/include/lexer.hpp): a word with decoded text, or a pipe separator. -/
inductive Token
  | word (text : List Char)
  | pipe
deriving DecidableEq, Repr

/-- The `flushCurrent` lambda of `Lexer::tokenize`. -/
def lexEmit (cur : List Char) (ts : List Token) : List Token :=
  if cur = [] then ts else .word cur :: ts

/-- Core loop of `Lexer::tokenize` (src/src/lexer.cpp).  It differs from
the inline tokenizer in two places: tokens are tagged, and only a space
or a tab separates words (`ch == ' ' || ch == '\t'` rather than
`std::isspace`).  Its expansion (`Expander::expandAt`) is
character-for-character the algorithm of the inline `expandVarAt` lambda,
so the model shares `expandVarAt`. -/
def lexTok (env : Env) (st : QState) (cur : List Char) (s : List Char) :
    Option (List Token) :=
  match st, s with
  | .normal, [] => some (lexEmit cur [])
  | .inSingle, [] => none
  | .inDouble, [] => none
  | .normal, c :: cs =>
      if c = '|' then
        (lexTok env .normal [] cs).map (fun ts => lexEmit cur (.pipe :: ts))
      else if c = ' ' || c = '\t' then
        (lexTok env .normal [] cs).map (lexEmit cur)
      else if c = '\'' then lexTok env .inSingle cur cs
      else if c = '"' then lexTok env .inDouble cur cs
      else if c = '$' then
        let p := expandVarAt env cur cs
        lexTok env .normal p.1 p.2
      else lexTok env .normal (cur ++ [c]) cs
  | .inSingle, c :: cs =>
      if c = '\'' then lexTok env .normal cur cs
      else lexTok env .inSingle (cur ++ [c]) cs
  | .inDouble, c :: cs =>
      if c = '"' then lexTok env .normal cur cs
      else if c = '$' then
        let p := expandVarAt env cur cs
        lexTok env .inDouble p.1 p.2
      else lexTok env .inDouble (cur ++ [c]) cs
termination_by s.length
decreasing_by
  all_goals simp only [List.length_cons]
  any_goals exact Nat.lt_succ_self _
  all_goals
    refine Nat.lt_succ_of_le ?_
    show (expandVarAt env cur cs).2.length ≤ cs.length
    cases cs with
    | nil => simp [expandVarAt]
    | cons c cs2 =>
        by_cases h : isAlphaUnd c
        · simp only [expandVarAt, h, if_pos]
          exact Nat.le_succ_of_le ((List.dropWhile_sublist _).length_le)
        · simp [expandVarAt, h]

/-- `Lexer::tokenize`: the class-based front end.  `none` models the
thrown "unterminated quote". -/
def lexTokenize (env : Env) (line : List Char) : Option (List Token) :=
  lexTok env .normal [] line

/-- Loop of `Parser::parse` (src/src/parser.cpp): `sawAnything` tracks
whether any token was seen; `none` models the thrown
"empty command in pipeline". -/
def parseAux (sawAnything : Bool) (cur : List (List Char)) :
    List Token → Option (List (List (List Char)))
  | [] =>
      if cur = [] then
        if sawAnything then none else some []
      else some [cur]
  | .pipe :: ts =>
      if sawAnything then
        if cur = [] then none
        else (parseAux true [] ts).map (fun ss => cur :: ss)
      else none
  | .word w :: ts => parseAux true (cur ++ [w]) ts

/-- `Parser::parse`: group the tagged token sequence into stages,
rejecting leading, trailing, and adjacent pipes. -/
def parseTokens (ts : List Token) : Option (List (List (List Char))) :=
  parseAux false [] ts

/-- The inline front end of `Shell::executeLine`: tokenize with the
inline tokenizer, then split at bare `"|"` tokens. -/
def inlineFrontEnd (env : Env) (line : List Char) :
    Option (List (List (List Char))) :=
  match tokenizeWithPipesAndExpansion env line with
  | none => none
  | some toks => splitStages toks

/-- The class-based front end: `Lexer::tokenize` then `Parser::parse`. -/
def classFrontEnd (env : Env) (line : List Char) :
    Option (List (List (List Char))) :=
  match lexTokenize env line with
  | none => none
  | some ts => parseTokens ts

/-- The text a tagged token contributes to the inline (untagged) token
stream: a word keeps its text, a pipe becomes the bare string `"|"`. -/
def tokText : Token → List Char
  | .word t => t
  | .pipe => ['|']

/-- No word token of the sequence carries exactly the text `|` (such a
word would collide with the inline separator). -/
def wordsOk (ts : List Token) : Prop :=
  ∀ w, Token.word w ∈ ts → w ≠ ['|']

/-- The token sequence does not end with a pipe (the inline stage
splitter silently accepts a trailing pipe, `Parser::parse` rejects it). -/
def lastOk (ts : List Token) : Prop :=
  ts.getLast? ≠ some Token.pipe

/-- Oracle instance used to instantiate witnesses: no executable exists,
every OS call succeeds, every file is absent. -/
def sysW : Sys :=
  ⟨fun _ => false, none, true, .exited 0, none, [], fun _ => none, [], []⟩

/-- Pipeline oracle instance used to instantiate witnesses: every pipe
and fork succeeds and every child exits normally with status 0. -/
def psW : PipeSys :=
  ⟨true, true, fun _ => true, fun _ => true, fun _ => .exited 0, [], [], []⟩

/-- Pipeline oracle for the two-stage witness of the exit-code claim:
the first child's wait fails, the second exits with status 5. -/
def psW2 : PipeSys :=
  ⟨true, true, fun _ => true, fun _ => true,
   fun i => if i = 0 then .waitFail else .exited 5, [], [], []⟩

/-!  Helper lemmas. -/

/-- Does the token sequence start with a bare pipe token? -/
def hasLeadingPipe (ts : List (List Char)) : Bool :=
  match ts with
  | t :: _ => t = ['|']
  | [] => false

/-- Does the token sequence contain two adjacent bare pipe tokens? -/
def hasAdjacentPipes : List (List Char) → Bool
  | a :: b :: rest => (a = ['|'] && b = ['|']) || hasAdjacentPipes (b :: rest)
  | _ => false

example :
    tokenizeWithPipesAndExpansion [] (str "echo \"hello world\" 'one quote'")
      = some [str "echo", str "hello world", str "one quote"] := by
  simp [tokenizeWithPipesAndExpansion, str, tokWPE, emit, isspaceC, expandVarAt]

example : tokenizeWithPipesAndExpansion [] (str "echo \"unfinished") = none := by
  simp [tokenizeWithPipesAndExpansion, str, tokWPE, emit, isspaceC, expandVarAt]

example :
    tokenizeWithPipesAndExpansion [(str "X", str "hello")] (str "echo $X")
      = some [str "echo", str "hello"] := by
  simp [tokenizeWithPipesAndExpansion, str, tokWPE, emit, isspaceC, expandVarAt,
    isAlphaUnd, isAlnumUnd, isalphaC, isalnumC, isdigitC, envGet]

example :
    tokenizeWithPipesAndExpansion [(str "X", str "hello")] (str "echo '$X'")
      = some [str "echo", str "$X"] := by
  simp [tokenizeWithPipesAndExpansion, str, tokWPE, emit, isspaceC, expandVarAt]

example :
    tokenizeWithPipesAndExpansion [] (str "echo 123 | wc")
      = some [str "echo", str "123", str "|", str "wc"] := by
  simp [tokenizeWithPipesAndExpansion, str, tokWPE, emit, isspaceC, expandVarAt]

example :
    splitStages [str "echo", str "123", str "|", str "wc"]
      = some [[str "echo", str "123"], [str "wc"]] := by decide

example : splitStages [str "|", str "echo"] = none := by decide

example : splitStages [str "echo", str "|"] = some [[str "echo"]] := by decide

theorem mem_emit {t cur : List Char} {ts : List (List Char)}
    (h : t ∈ emit cur ts) : t = cur ∧ cur ≠ [] ∨ t ∈ ts := by
  unfold emit at h
  by_cases hc : cur = []
  · simp [hc] at h
    exact Or.inr h
  · simp [hc] at h
    rcases h with h | h
    · exact Or.inl ⟨h, hc⟩
    · exact Or.inr h

theorem tokWPE_normal_nil (env : Env) (cur : List Char) :
    tokWPE env .normal cur [] = some (emit cur []) := by
  conv_lhs => rw [tokWPE.eq_def]

theorem tokWPE_inSingle_nil (env : Env) (cur : List Char) :
    tokWPE env .inSingle cur [] = none := by
  conv_lhs => rw [tokWPE.eq_def]

theorem tokWPE_inDouble_nil (env : Env) (cur : List Char) :
    tokWPE env .inDouble cur [] = none := by
  conv_lhs => rw [tokWPE.eq_def]

theorem tokWPE_normal_cons (env : Env) (cur : List Char) (c : Char)
    (cs : List Char) :
    tokWPE env .normal cur (c :: cs) =
      if c = '|' then
        (tokWPE env .normal [] cs).map (fun ts => emit cur (['|'] :: ts))
      else if isspaceC c then (tokWPE env .normal [] cs).map (emit cur)
      else if c = '\'' then tokWPE env .inSingle cur cs
      else if c = '"' then tokWPE env .inDouble cur cs
      else if c = '$' then
        tokWPE env .normal (expandVarAt env cur cs).1 (expandVarAt env cur cs).2
      else tokWPE env .normal (cur ++ [c]) cs := by
  conv_lhs => rw [tokWPE.eq_def]

theorem tokWPE_inSingle_cons (env : Env) (cur : List Char) (c : Char)
    (cs : List Char) :
    tokWPE env .inSingle cur (c :: cs) =
      if c = '\'' then tokWPE env .normal cur cs
      else tokWPE env .inSingle (cur ++ [c]) cs := by
  conv_lhs => rw [tokWPE.eq_def]

theorem tokWPE_inDouble_cons (env : Env) (cur : List Char) (c : Char)
    (cs : List Char) :
    tokWPE env .inDouble cur (c :: cs) =
      if c = '"' then tokWPE env .normal cur cs
      else if c = '$' then
        tokWPE env .inDouble (expandVarAt env cur cs).1 (expandVarAt env cur cs).2
      else tokWPE env .inDouble (cur ++ [c]) cs := by
  conv_lhs => rw [tokWPE.eq_def]

theorem tokWPE_ne_nil (env : Env) (st : QState) (cur s : List Char) :
    ∀ toks, tokWPE env st cur s = some toks → ∀ t ∈ toks, t ≠ [] := by
  induction st, cur, s using tokWPE.induct env with
  | case1 cur =>
      intro toks h t ht
      rw [tokWPE_normal_nil] at h
      cases h
      rcases mem_emit ht with ⟨rfl, hne⟩ | hmem
      · exact hne
      · simp at hmem
  | case2 cur => intro toks h; rw [tokWPE_inSingle_nil] at h; cases h
  | case3 cur => intro toks h; rw [tokWPE_inDouble_nil] at h; cases h
  | case4 cur cs ih =>
      intro toks h t ht
      rw [tokWPE_normal_cons] at h
      simp only [if_pos rfl] at h
      rcases Option.map_eq_some'.mp h with ⟨ts2, hts2, rfl⟩
      rcases mem_emit ht with ⟨rfl, hne⟩ | hmem
      · exact hne
      · rcases List.mem_cons.mp hmem with rfl | hmem2
        · simp
        · exact ih ts2 hts2 t hmem2
  | case5 cur c cs h1 h2 ih =>
      intro toks h t ht
      rw [tokWPE_normal_cons] at h
      simp only [h1, h2, if_neg, if_pos, if_true, if_false] at h
      rcases Option.map_eq_some'.mp h with ⟨ts2, hts2, rfl⟩
      rcases mem_emit ht with ⟨rfl, hne⟩ | hmem
      · exact hne
      · exact ih ts2 hts2 t hmem
  | case6 cur cs h1 h2 ih =>
      intro toks h
      rw [tokWPE_normal_cons] at h
      simp only [h1, h2, if_neg, if_pos, if_true, if_false, if_pos rfl] at h
      exact ih toks h
  | case7 cur cs h1 h2 h3 ih =>
      intro toks h
      rw [tokWPE_normal_cons] at h
      simp only [h1, h2, h3, if_neg, if_pos, if_true, if_false, if_pos rfl] at h
      exact ih toks h
  | case8 cur cs p h1 h2 h3 h4 ih =>
      intro toks h
      rw [tokWPE_normal_cons] at h
      simp only [h1, h2, h3, h4, if_neg, if_pos, if_true, if_false,
        if_pos rfl] at h
      exact ih toks h
  | case9 cur c cs h1 h2 h3 h4 h5 ih =>
      intro toks h
      rw [tokWPE_normal_cons] at h
      simp only [h1, h2, h3, h4, h5, if_neg, if_false] at h
      exact ih toks h
  | case10 cur cs ih =>
      intro toks h
      rw [tokWPE_inSingle_cons] at h
      simp only [if_pos rfl] at h
      exact ih toks h
  | case11 cur c cs h1 ih =>
      intro toks h
      rw [tokWPE_inSingle_cons] at h
      simp only [h1, if_neg, if_false] at h
      exact ih toks h
  | case12 cur cs ih =>
      intro toks h
      rw [tokWPE_inDouble_cons] at h
      simp only [if_pos rfl] at h
      exact ih toks h
  | case13 cur cs p h1 ih =>
      intro toks h
      rw [tokWPE_inDouble_cons] at h
      simp only [h1, if_neg, if_false, if_pos rfl] at h
      exact ih toks h
  | case14 cur c cs h1 h2 ih =>
      intro toks h
      rw [tokWPE_inDouble_cons] at h
      simp only [h1, h2, if_neg, if_false] at h
      exact ih toks h

/-- C5: at a `$` outside single quotes, a `$` followed by end of input or
by a character that is not a letter or underscore is appended literally
and no variable is consumed; otherwise the maximal run of letters,
digits, and underscores after the `$` is the name, the Environment value
is appended when the name is bound and nothing is appended when it is
absent (expansion is total, never an error), scanning resumes right
after the name; and the appended value is never re-scanned — any value,
even one containing `$`, quotes, or `|`, lands verbatim in the token. -/
theorem C5_dollar_expansion (env : Env) (cur : List Char) (c : Char)
    (cs v : List Char) :
    (expandVarAt env cur [] = (cur ++ ['$'], [])) ∧
    (isAlphaUnd c = false →
       expandVarAt env cur (c :: cs) = (cur ++ ['$'], c :: cs)) ∧
    (isAlphaUnd c = true →
       envGet env (c :: cs.takeWhile isAlnumUnd) = some v →
       expandVarAt env cur (c :: cs) = (cur ++ v, cs.dropWhile isAlnumUnd)) ∧
    (isAlphaUnd c = true →
       envGet env (c :: cs.takeWhile isAlnumUnd) = none →
       expandVarAt env cur (c :: cs) = (cur, cs.dropWhile isAlnumUnd)) ∧
    (v ≠ [] →
       tokenizeWithPipesAndExpansion [(str "X", v)] (str "$X") = some [v]) := by
  refine ⟨by simp [expandVarAt], ?_, ?_, ?_, ?_⟩
  · intro h
    simp [expandVarAt, h]
  · intro h hget
    simp [expandVarAt, h, hget]
  · intro h hget
    simp [expandVarAt, h, hget]
  · intro hv
    simp [tokenizeWithPipesAndExpansion, str, tokWPE, emit, expandVarAt,
      isspaceC, isAlphaUnd, isalphaC, isalnumC, isdigitC, isAlnumUnd, envGet, hv]

/-- Witness for C5 at concrete inputs: `$1` keeps the `$` literal and
consumes nothing, and the value of `X`, even containing `$`, `|`, and a
quote, is substituted verbatim into a single token. -/
theorem C5_dollar_expansion_witness :
    expandVarAt [] [] ['1', 'x'] = (['$'], ['1', 'x']) ∧
    tokenizeWithPipesAndExpansion [(str "X", str "a|$Y '")] (str "$X")
      = some [str "a|$Y '"] := by
  constructor
  · exact (C5_dollar_expansion [] [] '1' ['x'] []).2.1 (by decide)
  · exact (C5_dollar_expansion [] [] 'X' [] (str "a|$Y '")).2.2.2.2 (by decide)

/-- C9: expansion never word-splits its output: inside both the normal
and the double-quote state, the entire value of the variable is appended
to the pending word (scanning then resumes after the name), so adjacent
literal characters and the value form one argument — concretely, with
`X = "a b"`, the line `p$X` yields the single token `pa b`. -/
theorem C9_no_word_splitting (env : Env) (cur : List Char) (c : Char)
    (cs v : List Char)
    (hc : isAlphaUnd c = true)
    (hget : envGet env (c :: cs.takeWhile isAlnumUnd) = some v) :
    (tokWPE env .normal cur ('$' :: c :: cs)
       = tokWPE env .normal (cur ++ v) (cs.dropWhile isAlnumUnd)) ∧
    (tokWPE env .inDouble cur ('$' :: c :: cs)
       = tokWPE env .inDouble (cur ++ v) (cs.dropWhile isAlnumUnd)) ∧
    (tokenizeWithPipesAndExpansion [(str "X", str "a b")] (str "p$X")
       = some [str "pa b"]) := by
  refine ⟨?_, ?_, ?_⟩
  · rw [tokWPE_normal_cons]
    simp [isspaceC, expandVarAt, hc, hget]
  · rw [tokWPE_inDouble_cons]
    simp [expandVarAt, hc, hget]
  · simp [tokenizeWithPipesAndExpansion, str, tokWPE, emit, expandVarAt,
      isspaceC, isAlphaUnd, isalphaC, isalnumC, isdigitC, isAlnumUnd, envGet]

/-- Witness for C9 at a concrete input: expanding `$X` with
`X = "a b"` in the middle of a pending word keeps one single word. -/
theorem C9_no_word_splitting_witness :
    tokWPE [(str "X", str "a b")] .normal ['p'] ['$', 'X']
        = tokWPE [(str "X", str "a b")] .normal (['p'] ++ str "a b") [] ∧
    tokenizeWithPipesAndExpansion [(str "X", str "a b")] (str "p$X")
      = some [str "pa b"] := by
  have h := C9_no_word_splitting [(str "X", str "a b")] ['p'] 'X' [] (str "a b")
    (by decide) (by decide)
  exact ⟨h.1, h.2.2⟩

/-- C6 counterexample: on the line `a '|' b` the quoted pipe is copied
verbatim into its own word, whose text is then exactly `|` — and the
stage-grouping loop of `executeLine` treats that word as a pipeline
separator, producing the two stages `[a]` and `[b]` instead of one stage
with `|` as an ordinary argument. -/
theorem C6_counterexample :
    tokenizeWithPipesAndExpansion [] (str "a '|' b")
        = some [str "a", str "|", str "b"] ∧
    splitStages [str "a", str "|", str "b"] = some [[str "a"], [str "b"]] := by
  constructor
  · simp [tokenizeWithPipesAndExpansion, str, tokWPE, emit, expandVarAt, isspaceC]
  · decide

/-- C6 as amended: a `|` inside quotes is copied verbatim into the
current word's text, but during stage grouping a word is treated as a
pipeline separator precisely when its whole text is `|`, regardless of
origin; a quoted `|` is an ordinary argument of its stage exactly when
the containing word's text differs from `|`. -/
theorem C6_quoted_pipe (env : Env) (cur cs w : List Char)
    (ts : List (List Char)) (stage : List (List Char)) :
    (tokWPE env .inSingle cur ('|' :: cs)
        = tokWPE env .inSingle (cur ++ ['|']) cs) ∧
    (tokWPE env .inDouble cur ('|' :: cs)
        = tokWPE env .inDouble (cur ++ ['|']) cs) ∧
    (w ≠ ['|'] →
       splitStagesAux stage (w :: ts) = splitStagesAux (stage ++ [w]) ts) ∧
    (splitStagesAux stage (['|'] :: ts)
        = if stage = [] then none
          else (splitStagesAux [] ts).map (fun ss => stage :: ss)) ∧
    (inlineFrontEnd [] (str "a 'x|y'") = some [[str "a", str "x|y"]]) := by
  refine ⟨?_, ?_, ?_, ?_, ?_⟩
  · rw [tokWPE_inSingle_cons]
    simp
  · rw [tokWPE_inDouble_cons]
    simp
  · intro hw
    simp [splitStagesAux, hw]
  · simp [splitStagesAux]
  · simp [inlineFrontEnd, tokenizeWithPipesAndExpansion, str, tokWPE, emit,
      expandVarAt, isspaceC, splitStages, splitStagesAux]

/-- Witness for C6 as amended: a word containing a quoted pipe beside
other characters stays an ordinary argument of its stage. -/
theorem C6_quoted_pipe_witness :
    splitStagesAux [] [str "x|y"] = splitStagesAux [str "x|y"] [] ∧
    inlineFrontEnd [] (str "a 'x|y'") = some [[str "a", str "x|y"]] := by
  have h := C6_quoted_pipe [] [] [] (str "x|y") [] []
  exact ⟨h.2.2.1 (by decide), h.2.2.2.2⟩

/-- C7: external command resolution.  A first argument containing `/` is
checked directly as a path; a bare name is searched across the
colon-separated directory list taken from the Environment's `PATH`,
falling back to the ambient process search path when the Environment has
none; and when resolution fails for a non-builtin command, the
single-stage dispatcher writes `<name>: command not found` to the error
sink and returns exit code 127 with the terminate flag false. -/
theorem C7_external_resolution (sys : Sys) (env : Env) (file cmd v p : List Char)
    (args : List (List Char)) :
    ('/' ∈ file →
       findInPath sys.isExec sys.ambientPath file env
         = (if sys.isExec file then some file else none)) ∧
    ('/' ∉ file → envGet env (str "PATH") = some v →
       findInPath sys.isExec sys.ambientPath file env
         = searchPath sys.isExec file (splitColon v)) ∧
    ('/' ∉ file → envGet env (str "PATH") = none →
       sys.ambientPath = some p →
       findInPath sys.isExec sys.ambientPath file env
         = searchPath sys.isExec file (splitColon p)) ∧
    (cmd ≠ str "cat" → cmd ≠ str "echo" → cmd ≠ str "wc" → cmd ≠ str "pwd" →
       cmd ≠ str "exit" →
       findInPath sys.isExec sys.ambientPath cmd env = none →
       executeArgv sys env (cmd :: args)
         = ⟨⟨127, false⟩, [], [cmd ++ str ": command not found\n"], 0⟩) := by
  refine ⟨?_, ?_, ?_, ?_⟩
  · intro h
    simp [findInPath, h]
  · intro h hget
    simp [findInPath, h, hget]
  · intro h hget hamb
    simp [findInPath, h, hget, hamb]
  · intro h1 h2 h3 h4 h5 hfind
    simp [executeArgv, h1, h2, h3, h4, h5, runExternal, hfind]

/-- Witness for C7 at concrete inputs: with no executable anywhere, a
slash-free name resolves through the `PATH` of the Environment, a
slash-containing name is checked directly, and an unresolvable
non-builtin command yields 127 and the not-found message. -/
theorem C7_external_resolution_witness :
    findInPath sysW.isExec sysW.ambientPath (str "a/b") [] = none ∧
    findInPath sysW.isExec sysW.ambientPath (str "foo")
        [(str "PATH", str "/bin")]
      = searchPath sysW.isExec (str "foo") (splitColon (str "/bin")) ∧
    executeArgv sysW [] [str "foo"]
      = ⟨⟨127, false⟩, [], [str "foo" ++ str ": command not found\n"], 0⟩ := by
  have h1 := (C7_external_resolution sysW [] (str "a/b") (str "foo")
    (str "/bin") [] []).1 (by decide)
  have h2 := (C7_external_resolution sysW [(str "PATH", str "/bin")]
    (str "foo") (str "foo") (str "/bin") [] []).2.1 (by decide) (by decide)
  have h3 := (C7_external_resolution sysW [] (str "foo") (str "foo")
    (str "/bin") [] []).2.2.2 (by decide) (by decide) (by decide) (by decide)
    (by decide) (by decide)
  exact ⟨by simpa [sysW] using h1, h2, h3⟩

theorem splitStagesAux_ne_nil (toks : List (List Char)) :
    ∀ cur stages, (∀ t ∈ toks, t ≠ []) → (∀ t ∈ cur, t ≠ []) →
      splitStagesAux cur toks = some stages →
      ∀ s ∈ stages, ∀ a ∈ s, a ≠ [] := by
  induction toks with
  | nil =>
      intro cur stages _ hcur h s hs a ha
      simp only [splitStagesAux] at h
      cases h
      by_cases hc : cur = []
      · simp [hc] at hs
      · simp [hc] at hs
        subst hs
        exact hcur a ha
  | cons t ts ih =>
      intro cur stages htoks hcur h s hs a ha
      simp only [splitStagesAux] at h
      by_cases hp : t = ['|']
      · simp only [hp, if_pos rfl] at h
        by_cases hc : cur = []
        · simp [hc] at h
        · simp only [hc, if_neg, if_false] at h
          rcases Option.map_eq_some'.mp h with ⟨ss, hss, rfl⟩
          rcases List.mem_cons.mp hs with rfl | hs2
          · exact hcur a ha
          · exact ih [] ss (fun x hx => htoks x (List.mem_cons_of_mem _ hx))
              (by simp) hss s hs2 a ha
      · simp only [hp, if_neg, if_false] at h
        refine ih (cur ++ [t]) stages
          (fun x hx => htoks x (List.mem_cons_of_mem _ hx)) ?_ h s hs a ha
        intro x hx
        rcases List.mem_append.mp hx with hx2 | hx2
        · exact hcur x hx2
        · rcases List.mem_singleton.mp hx2 with rfl
          exact htoks x (List.mem_cons_self x ts)

/-- C8: a quoted empty string never produces a token.  Every token the
inline tokenizer emits is non-empty (only non-empty pending words are
flushed), hence no stage ever receives an empty-string argument; and a
line consisting only of whitespace and empty quote pairs tokenizes to
the empty sequence, so `executeLine` returns exit code 0 without running
anything and without touching the environment. -/
theorem C8_no_empty_arguments (sys : Sys) (ps : PipeSys) (env : Env)
    (line : List Char) (toks : List (List Char))
    (stages : List (List (List Char))) :
    (tokenizeWithPipesAndExpansion env line = some toks → ∀ t ∈ toks, t ≠ []) ∧
    ((∀ t ∈ toks, t ≠ []) → splitStages toks = some stages →
       ∀ s ∈ stages, ∀ a ∈ s, a ≠ []) ∧
    (executeLine sys ps env (str "'' \"\"")
        = (env, ⟨⟨0, false⟩, [], [], 0⟩)) := by
  refine ⟨?_, ?_, ?_⟩
  · intro h
    exact tokWPE_ne_nil env .normal [] line toks h
  · intro hne h
    exact splitStagesAux_ne_nil toks [] stages hne (by simp) h
  · simp [executeLine, str, tokenizeWithPipesAndExpansion, tokWPE, emit,
      isspaceC, expandVarAt]

/-- Witness for C8 at a concrete input: tokenizing `a ''` yields only the
non-empty token `a`, and the pure-quotes line runs nothing. -/
theorem C8_no_empty_arguments_witness :
    (∀ t ∈ [str "a"], t ≠ []) ∧
    (∀ s ∈ [[str "a"]], ∀ a ∈ s, a ≠ []) ∧
    executeLine sysW psW [] (str "'' \"\"") = ([], ⟨⟨0, false⟩, [], [], 0⟩) := by
  have h := C8_no_empty_arguments sysW psW [] (str "a ''") [str "a"] [[str "a"]]
  refine ⟨h.1 ?_, h.2.1 ?_ ?_, h.2.2⟩
  · simp [tokenizeWithPipesAndExpansion, str, tokWPE, emit, isspaceC, expandVarAt]
  · exact h.1 (by
      simp [tokenizeWithPipesAndExpansion, str, tokWPE, emit, isspaceC, expandVarAt])
  · decide

theorem splitStagesAux_cons (cur : List (List Char)) (t : List Char)
    (ts : List (List Char)) :
    splitStagesAux cur (t :: ts)
      = if t = ['|'] then
          if cur = [] then none
          else (splitStagesAux [] ts).map (fun ss => cur :: ss)
        else splitStagesAux (cur ++ [t]) ts := rfl

theorem splitStagesAux_adjacent_none (ts : List (List Char)) :
    ∀ cur, hasAdjacentPipes ts = true → splitStagesAux cur ts = none := by
  induction ts with
  | nil => intro cur h; simp [hasAdjacentPipes] at h
  | cons a ts2 ih =>
      intro cur h
      match ts2, h with
      | b :: rest, h =>
          simp only [hasAdjacentPipes, Bool.or_eq_true, Bool.and_eq_true] at h
          rw [splitStagesAux_cons]
          by_cases hp : a = ['|']
          · rw [if_pos hp]
            by_cases hc : cur = []
            · rw [if_pos hc]
            · rw [if_neg hc]
              have hnone : splitStagesAux [] (b :: rest) = none := by
                rcases h with ⟨_, hb⟩ | hadj
                · have hb2 : b = ['|'] := by simpa using hb
                  rw [splitStagesAux_cons, if_pos hb2, if_pos rfl]
                · exact ih [] hadj
              rw [hnone]
              rfl
          · rw [if_neg hp]
            rcases h with ⟨ha, _⟩ | hadj
            · exact absurd (by simpa using ha) hp
            · exact ih (cur ++ [a]) hadj

theorem splitStages_error_of_bad_pipes (ts : List (List Char))
    (h : hasLeadingPipe ts = true ∨ hasAdjacentPipes ts = true) :
    splitStages ts = none := by
  rcases h with h | h
  · match ts, h with
    | t :: rest, h =>
        have ht : t = ['|'] := by simpa [hasLeadingPipe] using h
        simp [splitStages, splitStagesAux, ht]
  · exact splitStagesAux_adjacent_none ts [] h

theorem hasLeadingPipe_ne_nil {ts : List (List Char)}
    (h : hasLeadingPipe ts = true) : ts ≠ [] := by
  cases ts <;> simp [hasLeadingPipe] at h ⊢

theorem hasAdjacentPipes_ne_nil {ts : List (List Char)}
    (h : hasAdjacentPipes ts = true) : ts ≠ [] := by
  cases ts <;> simp [hasAdjacentPipes] at h ⊢

/-- C1 counterexample: the claim also covers a trailing pipe, but
`executeLine` accepts `echo |` — the stage-splitting loop silently drops
the empty final stage, so the line runs `echo` as a single stage and
returns exit code 0 (not 2), writing nothing to the error sink. -/
theorem C1_counterexample :
    executeLine sysW psW [] (str "echo |")
      = ([], ⟨⟨0, false⟩, [['\n']], [], 0⟩) := by
  simp [executeLine, str, tokenizeWithPipesAndExpansion, tokWPE, emit,
    isspaceC, expandVarAt, splitStages, splitStagesAux,
    tryHandleAssignmentsOnly, checkAssigns, splitAssign, splitFirstEq,
    executeArgv, builtinEcho, echoJoin]

/-- C1 as amended: for every line whose token sequence has a leading
pipe or two adjacent pipes, and for every line with an unterminated
single or double quote, `executeLine` reports the error to the error
sink, returns exit code 2 with the terminate flag false, and creates no
process.  (A trailing pipe, by contrast, is accepted: the empty final
stage is dropped and the remaining pipeline is executed normally.) -/
theorem C1_parse_errors (sys : Sys) (ps : PipeSys) (env : Env)
    (line : List Char) (toks : List (List Char)) :
    (tokenizeWithPipesAndExpansion env line = none →
       executeLine sys ps env line
         = (env, ⟨⟨2, false⟩, [],
             [str "parse error: unterminated quote\n"], 0⟩)) ∧
    (tokenizeWithPipesAndExpansion env line = some toks →
       hasLeadingPipe toks = true ∨ hasAdjacentPipes toks = true →
       executeLine sys ps env line
         = (env, ⟨⟨2, false⟩, [],
             [str "parse error: empty command in pipeline\n"], 0⟩)) := by
  constructor
  · intro h
    simp [executeLine, h]
  · intro htok hbad
    have hne : toks ≠ [] := by
      rcases hbad with h | h
      · exact hasLeadingPipe_ne_nil h
      · exact hasAdjacentPipes_ne_nil h
    have hsplit := splitStages_error_of_bad_pipes toks hbad
    simp [executeLine, htok, hne, hsplit]

/-- Witness for C1 as amended: the leading-pipe line `| a` and the
unterminated-quote line `"x` both yield exit code 2, the error message,
and no process. -/
theorem C1_parse_errors_witness :
    executeLine sysW psW [] (str "| a")
        = ([], ⟨⟨2, false⟩, [],
            [str "parse error: empty command in pipeline\n"], 0⟩) ∧
    executeLine sysW psW [] (str "\"x")
        = ([], ⟨⟨2, false⟩, [],
            [str "parse error: unterminated quote\n"], 0⟩) := by
  constructor
  · exact (C1_parse_errors sysW psW [] (str "| a") [str "|", str "a"]).2
      (by simp [tokenizeWithPipesAndExpansion, str, tokWPE, emit, isspaceC,
        expandVarAt])
      (by left; decide)
  · exact (C1_parse_errors sysW psW [] (str "\"x") []).1
      (by simp [tokenizeWithPipesAndExpansion, str, tokWPE, emit, isspaceC,
        expandVarAt])

theorem builtinCat_shouldExit (sys : Sys) (argv : List (List Char)) :
    (builtinCat sys argv).result.shouldExit = false := by
  match argv with
  | [] => rfl
  | [a] => rfl
  | [a, f] =>
      simp only [builtinCat]
      cases sys.readFile f <;> rfl
  | a :: b :: c :: rest => rfl

theorem wcOut_shouldExit (d : List Char) :
    (wcOut d).result.shouldExit = false := by
  unfold wcOut
  rcases wcLoop false 0 0 0 d with ⟨l, w, b⟩
  rfl

theorem builtinWc_shouldExit (sys : Sys) (argv : List (List Char)) :
    (builtinWc sys argv).result.shouldExit = false := by
  match argv with
  | [] => rfl
  | [a] => exact wcOut_shouldExit sys.stdinData
  | [a, f] =>
      simp only [builtinWc]
      cases sys.readFile f with
      | none => rfl
      | some d => exact wcOut_shouldExit d
  | a :: b :: c :: rest => rfl

theorem builtinPwd_shouldExit (sys : Sys) :
    (builtinPwd sys).result.shouldExit = false := by
  unfold builtinPwd
  cases sys.cwd <;> rfl

theorem runExternal_shouldExit (sys : Sys) (env : Env)
    (argv : List (List Char)) :
    (runExternal sys env argv).result.shouldExit = false := by
  simp only [runExternal]
  rcases h : findInPath sys.isExec sys.ambientPath (argv.headD []) env with _ | fp
  · rfl
  · by_cases hf : sys.forkOk = true
    · simp only [hf, if_true]
      rcases hw : sys.extWait <;> rfl
    · simp [hf]

theorem executeArgv_shouldExit_false (sys : Sys) (env : Env) (cmd : List Char)
    (args : List (List Char)) (h5 : cmd ≠ str "exit") :
    (executeArgv sys env (cmd :: args)).result.shouldExit = false := by
  simp only [executeArgv]
  by_cases h1 : cmd = str "cat"
  · rw [if_pos h1]
    exact builtinCat_shouldExit sys _
  · rw [if_neg h1]
    by_cases h2 : cmd = str "echo"
    · rw [if_pos h2]
      rfl
    · rw [if_neg h2]
      by_cases h3 : cmd = str "wc"
      · rw [if_pos h3]
        exact builtinWc_shouldExit sys _
      · rw [if_neg h3]
        by_cases h4 : cmd = str "pwd"
        · rw [if_pos h4]
          exact builtinPwd_shouldExit sys
        · rw [if_neg h4, if_neg h5]
          exact runExternal_shouldExit sys env _

theorem runPipeline_shouldExit (ps : PipeSys) (n : Nat) :
    (runPipeline ps n).result.shouldExit = false := by
  unfold runPipeline
  by_cases h1 : ps.errPipeOk = true
  · by_cases h2 : ps.outPipeOk = true
    · simp only [h1, h2, if_true]
      rcases hs : spawnRem ps n n 0 with _ | ⟨msg, i⟩ <;> simp [hs]
    · simp [h1, h2]
  · simp [h1]

/-- C3: pipelines never terminate the interpreter.  For every pipeline of
two or more stages the returned terminate flag is false on every path —
even when a stage is the `exit` builtin — and a returned result with the
flag true can only come from a single-stage in-process invocation whose
command word is `exit`; conversely a single-stage `exit` line does set
the flag. -/
theorem C3_pipeline_never_terminates (sys : Sys) (ps : PipeSys) (env : Env)
    (line : List Char) (toks : List (List Char))
    (stages : List (List (List Char))) (rest : List (List Char)) :
    (tokenizeWithPipesAndExpansion env line = some toks →
       splitStages toks = some stages → 2 ≤ stages.length →
       (executeLine sys ps env line).2.result.shouldExit = false) ∧
    ((executeLine sys ps env line).2.result.shouldExit = true →
       ∃ toks2 argv, tokenizeWithPipesAndExpansion env line = some toks2 ∧
         splitStages toks2 = some [argv] ∧ argv.headD [] = str "exit") ∧
    (tokenizeWithPipesAndExpansion env line = some toks →
       splitStages toks = some [str "exit" :: rest] →
       (executeLine sys ps env line).2.result.shouldExit = true) := by
  refine ⟨?_, ?_, ?_⟩
  · intro htok hsplit hlen
    rcases stages with _ | ⟨s1, _ | ⟨s2, ss⟩⟩
    · simp at hlen
    · simp at hlen
    · have hne : toks ≠ [] := by
        intro hn
        rw [hn] at hsplit
        simp [splitStages, splitStagesAux] at hsplit
      simp only [executeLine, htok, hne, if_neg, hsplit]
      simp [runPipeline_shouldExit]
  · intro h
    rcases htok2 : tokenizeWithPipesAndExpansion env line with _ | toks2
    · rw [executeLine] at h
      simp only [htok2] at h
      simp at h
    · by_cases hne : toks2 = []
      · rw [executeLine] at h
        simp only [htok2, hne, if_pos, if_true] at h
        simp [hne] at h
      · rcases hsplit2 : splitStages toks2 with _ | stages2
        · rw [executeLine] at h
          simp only [htok2, hne, if_neg, hsplit2] at h
          simp [hne] at h
        · rcases stages2 with _ | ⟨argv, _ | ⟨s2, ss⟩⟩
          · rw [executeLine] at h
            simp only [htok2, hne, hsplit2] at h
            simp [hne] at h
          · rcases hassign : tryHandleAssignmentsOnly env argv with ⟨_ | env2, msgs⟩
            · rcases argv with _ | ⟨cmd, args⟩
              · rw [executeLine] at h
                simp only [htok2, hne, hsplit2, hassign] at h
                simp [hne, executeArgv] at h
              · by_cases hcmd : cmd = str "exit"
                · exact ⟨toks2, cmd :: args, rfl, hsplit2, by simp [hcmd]⟩
                · rw [executeLine] at h
                  simp only [htok2, hne, hsplit2, hassign] at h
                  simp [hne, executeArgv_shouldExit_false sys env cmd args hcmd] at h
            · rw [executeLine] at h
              simp only [htok2, hne, hsplit2, hassign] at h
              simp [hne] at h
          · rw [executeLine] at h
            simp only [htok2, hne, hsplit2] at h
            simp [hne, runPipeline_shouldExit] at h
  · intro htok hsplit
    have hne : toks ≠ [] := by
      intro hn
      rw [hn] at hsplit
      simp [splitStages, splitStagesAux] at hsplit
    have hassign : tryHandleAssignmentsOnly env (str "exit" :: rest)
        = (none, []) := by
      simp [tryHandleAssignmentsOnly, checkAssigns, splitAssign, splitFirstEq, str]
    simp only [executeLine, htok, hne, if_neg, hsplit, hassign]
    simp [hne, executeArgv, builtinExit, str]

/-- Witness for C3: the single-stage line `exit` does return the
terminate flag set. -/
theorem C3_pipeline_never_terminates_witness :
    (executeLine sysW psW [] (str "exit")).2.result.shouldExit = true := by
  refine (C3_pipeline_never_terminates sysW psW [] (str "exit")
    [str "exit"] [] []).2.2 ?_ ?_
  · simp [tokenizeWithPipesAndExpansion, str, tokWPE, emit, isspaceC, expandVarAt]
  · decide

theorem checkAssigns_ok (argv : List (List Char))
    (hform : ∀ a ∈ argv, ∃ n v, splitAssign a = some (n, v))
    (hvalid : ∀ a n v, a ∈ argv → splitAssign a = some (n, v) →
       isValidVarName n = true) :
    checkAssigns argv = .ok := by
  induction argv with
  | nil => rfl
  | cons a rest ih =>
      obtain ⟨n, v, hsp⟩ := hform a (List.mem_cons_self a rest)
      have hv := hvalid a n v (List.mem_cons_self a rest) hsp
      simp only [checkAssigns, hsp, hv, if_pos]
      exact ih (fun x hx => hform x (List.mem_cons_of_mem a hx))
        (fun x n2 v2 hx hs => hvalid x n2 v2 (List.mem_cons_of_mem a hx) hs)

theorem checkAssigns_invalid (argv : List (List Char))
    (hform : ∀ a ∈ argv, ∃ n v, splitAssign a = some (n, v))
    (hbad : ∃ a ∈ argv, ∃ n v, splitAssign a = some (n, v) ∧
       isValidVarName n = false) :
    ∃ n, checkAssigns argv = .invalidName n := by
  induction argv with
  | nil => simp at hbad
  | cons a rest ih =>
      obtain ⟨n, v, hsp⟩ := hform a (List.mem_cons_self a rest)
      by_cases hv : isValidVarName n = true
      · have hstep : checkAssigns (a :: rest) = checkAssigns rest := by
          simp [checkAssigns, hsp, hv]
        rw [hstep]
        refine ih (fun x hx => hform x (List.mem_cons_of_mem a hx)) ?_
        obtain ⟨a0, ha0, n0, v0, hs0, hbad0⟩ := hbad
        rcases List.mem_cons.mp ha0 with rfl | ha0r
        · rw [hsp] at hs0
          cases hs0
          rw [hv] at hbad0
          cases hbad0
        · exact ⟨a0, ha0r, n0, v0, hs0, hbad0⟩
      · refine ⟨n, ?_⟩
        have hv2 : isValidVarName n = false := by
          cases hvn : isValidVarName n
          · rfl
          · exact absurd hvn hv
        simp [checkAssigns, hsp, hv2]

/-- C4: assignment-only lines.  For a single-stage line in which every
argument has the form `NAME=value`, all names are validated before any
value is applied: when every name is syntactically valid, all
assignments are applied to the Environment, no command is executed, and
the result is exit code 0 with the terminate flag false; when any name
is invalid, the Environment comes back completely unmodified. -/
theorem C4_assignment_only_lines (sys : Sys) (ps : PipeSys) (env : Env)
    (line : List Char) (toks : List (List Char)) (argv : List (List Char))
    (htok : tokenizeWithPipesAndExpansion env line = some toks)
    (hsplit : splitStages toks = some [argv])
    (hform : ∀ a ∈ argv, ∃ n v, splitAssign a = some (n, v)) :
    ((∀ a n v, a ∈ argv → splitAssign a = some (n, v) →
        isValidVarName n = true) →
       executeLine sys ps env line
         = (applyAssigns env argv, ⟨⟨0, false⟩, [], [], 0⟩)) ∧
    ((∃ a ∈ argv, ∃ n v, splitAssign a = some (n, v) ∧
        isValidVarName n = false) →
       (executeLine sys ps env line).1 = env) := by
  have hne : toks ≠ [] := by
    intro hn
    rw [hn] at hsplit
    simp [splitStages, splitStagesAux] at hsplit
  constructor
  · intro hvalid
    have hok := checkAssigns_ok argv hform hvalid
    have hassign : tryHandleAssignmentsOnly env argv
        = (some (applyAssigns env argv), []) := by
      simp [tryHandleAssignmentsOnly, hok]
    simp only [executeLine, htok, hne, if_neg, hsplit, hassign]
    simp [hne]
  · intro hbad
    obtain ⟨n, hinv⟩ := checkAssigns_invalid argv hform hbad
    have hassign : tryHandleAssignmentsOnly env argv
        = (none, [str "assignment error: invalid variable name: "
            ++ n ++ ['\n']]) := by
      simp [tryHandleAssignmentsOnly, hinv]
    simp only [executeLine, htok, hne, if_neg, hsplit, hassign]
    simp [hne]

/-- Witness for C4: the line `A=1 B=2` updates the Environment with both
bindings, runs no command, and returns exit code 0. -/
theorem C4_assignment_only_lines_witness :
    executeLine sysW psW [] (str "A=1 B=2")
      = ([(str "A", str "1"), (str "B", str "2")],
         ⟨⟨0, false⟩, [], [], 0⟩) := by
  have h := (C4_assignment_only_lines sysW psW [] (str "A=1 B=2")
    [str "A=1", str "B=2"] [str "A=1", str "B=2"]
    (by simp [tokenizeWithPipesAndExpansion, str, tokWPE, emit, isspaceC,
      expandVarAt])
    (by decide)
    (by
      intro a ha
      rcases List.mem_cons.mp ha with rfl | ha2
      · exact ⟨str "A", str "1", by decide⟩
      · rcases List.mem_cons.mp ha2 with rfl | ha3
        · exact ⟨str "B", str "2", by decide⟩
        · simp at ha3)).1
    (by
      intro a n v ha hsp
      rcases List.mem_cons.mp ha with rfl | ha2
      · have he : splitAssign (str "A=1") = some (str "A", str "1") := by decide
        rw [he] at hsp
        cases hsp
        decide
      · rcases List.mem_cons.mp ha2 with rfl | ha3
        · have he : splitAssign (str "B=2") = some (str "B", str "2") := by
            decide
          rw [he] at hsp
          cases hsp
          decide
        · simp at ha3)
  rw [h]
  decide

theorem shellWaitLoop_last (ws : List WaitOutcome) :
    ∀ acc w, ws.getLast? = some w → shellWaitLoop acc ws = waitCode w := by
  induction ws with
  | nil => intro acc w h; simp at h
  | cons x ws2 ih =>
      intro acc w hlast
      cases ws2 with
      | nil =>
          simp at hlast
          subst hlast
          cases x <;> simp [shellWaitLoop, waitCode]
      | cons y ws3 =>
          have hlast2 : (y :: ws3).getLast? = some w := by
            rwa [List.getLast?_cons_cons] at hlast
          cases x <;> simp only [shellWaitLoop] <;> exact ih _ w hlast2

theorem waitAll_last (ws : List WaitOutcome) :
    ∀ acc w, ws.getLast? = some w → waitAll acc ws = waitCode w := by
  induction ws with
  | nil => intro acc w h; simp at h
  | cons x ws2 ih =>
      intro acc w hlast
      cases ws2 with
      | nil =>
          simp at hlast
          subst hlast
          simp [waitAll]
      | cons y ws3 =>
          have hlast2 : (y :: ws3).getLast? = some w := by
            rwa [List.getLast?_cons_cons] at hlast
          simp only [waitAll]
          exact ih _ w hlast2

theorem range_map_getLast (f : Nat → WaitOutcome) (n : Nat) (h : 0 < n) :
    ((List.range n).map f).getLast? = some (f (n - 1)) := by
  cases n with
  | zero => omega
  | succ m =>
      rw [List.range_succ, List.map_append]
      simp

/-- C2: for a pipeline of `N ≥ 2` stages whose setup succeeds, the
aggregate exit code returned by `executeLine` is determined only by the
last stage's wait result — normal termination yields that process's exit
status, termination by signal yields 128 plus the signal number, and a
wait failure on the last process yields 127 (all folded into
`waitCode`); wait failures on non-last processes put a message on the
error sink but never change the aggregate code, which the first conjunct
shows by depending only on `ps.waits (N - 1)`. -/
theorem C2_last_stage_exit_code (sys : Sys) (ps : PipeSys) (env : Env)
    (line : List Char) (toks : List (List Char))
    (stages : List (List (List Char)))
    (htok : tokenizeWithPipesAndExpansion env line = some toks)
    (hsplit : splitStages toks = some stages)
    (hlen : 2 ≤ stages.length)
    (hep : ps.errPipeOk = true) (hop : ps.outPipeOk = true)
    (hspawn : spawnRem ps stages.length stages.length 0 = none) :
    executeLine sys ps env line
      = (env, ⟨⟨waitCode (ps.waits (stages.length - 1)), false⟩,
          [ps.drainOut], ps.drainErr :: waitFailMsgs ps stages.length,
          stages.length⟩) ∧
    (∀ i, i < stages.length → ps.waits i = .waitFail →
       waitFailLine ps.errnoMsg ∈ (executeLine sys ps env line).2.errs) := by
  rcases stages with _ | ⟨s1, _ | ⟨s2, ss⟩⟩
  · simp at hlen
  · simp at hlen
  · have hne : toks ≠ [] := by
      intro hn
      rw [hn] at hsplit
      simp [splitStages, splitStagesAux] at hsplit
    have hrun : runPipeline ps (s1 :: s2 :: ss).length
        = ⟨⟨waitCode (ps.waits ((s1 :: s2 :: ss).length - 1)), false⟩,
           [ps.drainOut], ps.drainErr :: waitFailMsgs ps (s1 :: s2 :: ss).length,
           (s1 :: s2 :: ss).length⟩ := by
      unfold runPipeline
      simp only [hep, hop, if_true, hspawn]
      have hlast := shellWaitLoop_last
        ((List.range (s1 :: s2 :: ss).length).map ps.waits) 0
        (ps.waits ((s1 :: s2 :: ss).length - 1))
        (range_map_getLast ps.waits _ (by simp))
      rw [hlast]
    have hexec : executeLine sys ps env line
        = (env, runPipeline ps (s1 :: s2 :: ss).length) := by
      simp only [executeLine, htok, hne, if_neg, hsplit]
      simp [hne]
    constructor
    · rw [hexec, hrun]
    · intro i hi hw
      rw [hexec, hrun]
      simp only []
      refine List.mem_cons_of_mem _ ?_
      unfold waitFailMsgs
      refine List.mem_filterMap.mpr ⟨i, List.mem_range.mpr hi, ?_⟩
      rw [hw]

/-- Witness for C2 at a concrete pipeline: in `a | b` with the first
stage's wait failing and the last exiting with status 5, the aggregate
exit code is 5 and the failure message for the first stage is on the
error sink. -/
theorem C2_last_stage_exit_code_witness :
    executeLine sysW psW2 [] (str "a | b")
      = ([], ⟨⟨5, false⟩, [[]],
          [] :: waitFailMsgs psW2 2, 2⟩) ∧
    waitFailLine psW2.errnoMsg ∈ (executeLine sysW psW2 [] (str "a | b")).2.errs := by
  have h := C2_last_stage_exit_code sysW psW2 [] (str "a | b")
    [str "a", str "|", str "b"] [[str "a"], [str "b"]]
    (by simp [tokenizeWithPipesAndExpansion, str, tokWPE, emit, isspaceC,
      expandVarAt])
    (by decide) (by decide) (by decide) (by decide) (by decide)
  exact ⟨h.1, h.2 0 (by decide) (by decide)⟩

theorem lexTok_normal_nil (env : Env) (cur : List Char) :
    lexTok env .normal cur [] = some (lexEmit cur []) := by
  conv_lhs => rw [lexTok.eq_def]

theorem lexTok_inSingle_nil (env : Env) (cur : List Char) :
    lexTok env .inSingle cur [] = none := by
  conv_lhs => rw [lexTok.eq_def]

theorem lexTok_inDouble_nil (env : Env) (cur : List Char) :
    lexTok env .inDouble cur [] = none := by
  conv_lhs => rw [lexTok.eq_def]

theorem lexTok_normal_cons (env : Env) (cur : List Char) (c : Char)
    (cs : List Char) :
    lexTok env .normal cur (c :: cs) =
      if c = '|' then
        (lexTok env .normal [] cs).map (fun ts => lexEmit cur (.pipe :: ts))
      else if c = ' ' || c = '\t' then
        (lexTok env .normal [] cs).map (lexEmit cur)
      else if c = '\'' then lexTok env .inSingle cur cs
      else if c = '"' then lexTok env .inDouble cur cs
      else if c = '$' then
        lexTok env .normal (expandVarAt env cur cs).1 (expandVarAt env cur cs).2
      else lexTok env .normal (cur ++ [c]) cs := by
  conv_lhs => rw [lexTok.eq_def]

theorem lexTok_inSingle_cons (env : Env) (cur : List Char) (c : Char)
    (cs : List Char) :
    lexTok env .inSingle cur (c :: cs) =
      if c = '\'' then lexTok env .normal cur cs
      else lexTok env .inSingle (cur ++ [c]) cs := by
  conv_lhs => rw [lexTok.eq_def]

theorem lexTok_inDouble_cons (env : Env) (cur : List Char) (c : Char)
    (cs : List Char) :
    lexTok env .inDouble cur (c :: cs) =
      if c = '"' then lexTok env .normal cur cs
      else if c = '$' then
        lexTok env .inDouble (expandVarAt env cur cs).1 (expandVarAt env cur cs).2
      else lexTok env .inDouble (cur ++ [c]) cs := by
  conv_lhs => rw [lexTok.eq_def]

theorem map_tokText_lexEmit (cur : List Char) (ts : List Token) :
    (lexEmit cur ts).map tokText = emit cur (ts.map tokText) := by
  unfold lexEmit emit
  by_cases h : cur = [] <;> simp [h, tokText]

theorem expandVarAt_rest_mem (env : Env) (cur cs : List Char) :
    ∀ c ∈ (expandVarAt env cur cs).2, c ∈ cs := by
  cases cs with
  | nil => simp [expandVarAt]
  | cons c0 cs2 =>
      by_cases h : isAlphaUnd c0
      · simp only [expandVarAt, h, if_pos]
        intro c hc
        exact List.mem_cons_of_mem c0 ((List.dropWhile_sublist _).mem hc)
      · simp [expandVarAt, h]

theorem isspaceC_space : isspaceC ' ' = true := by decide

theorem isspaceC_tab : isspaceC '\t' = true := by decide

theorem tokWPE_eq_lexTok (env : Env) (st : QState) (cur s : List Char) :
    (∀ c ∈ s, isspaceC c = true → c = ' ' ∨ c = '\t') →
      tokWPE env st cur s = (lexTok env st cur s).map (List.map tokText) := by
  induction st, cur, s using lexTok.induct env with
  | case1 cur =>
      intro _
      rw [tokWPE_normal_nil, lexTok_normal_nil]
      simp [map_tokText_lexEmit]
  | case2 cur =>
      intro _
      rw [tokWPE_inSingle_nil, lexTok_inSingle_nil]
      rfl
  | case3 cur =>
      intro _
      rw [tokWPE_inDouble_nil, lexTok_inDouble_nil]
      rfl
  | case4 cur cs ih =>
      intro hws
      rw [tokWPE_normal_cons, lexTok_normal_cons]
      simp only [if_pos rfl]
      rw [ih (fun c hc hs => hws c (List.mem_cons_of_mem _ hc) hs)]
      cases lexTok env .normal [] cs <;>
        simp [map_tokText_lexEmit, tokText]
  | case5 cur c cs h1 h2 ih =>
      intro hws
      have hsp : isspaceC c = true := by
        rcases Bool.or_eq_true_iff.mp h2 with h | h
        · simp only [decide_eq_true_eq] at h
          rw [h]
          exact isspaceC_space
        · simp only [decide_eq_true_eq] at h
          rw [h]
          exact isspaceC_tab
      rw [tokWPE_normal_cons, lexTok_normal_cons]
      simp only [h1, h2, hsp, if_neg, if_pos, if_true, if_false]
      rw [ih (fun c2 hc hs => hws c2 (List.mem_cons_of_mem _ hc) hs)]
      cases lexTok env .normal [] cs <;> simp [map_tokText_lexEmit]
  | case6 cur cs h1 h2 ih =>
      intro hws
      rw [tokWPE_normal_cons, lexTok_normal_cons]
      have hsp : isspaceC '\'' = false := by decide
      simp only [h1, h2, hsp, if_neg, if_true, if_false, if_pos rfl,
        Bool.false_eq_true]
      exact ih (fun c2 hc hs => hws c2 (List.mem_cons_of_mem _ hc) hs)
  | case7 cur cs h1 h2 h3 ih =>
      intro hws
      rw [tokWPE_normal_cons, lexTok_normal_cons]
      have hsp : isspaceC '"' = false := by decide
      simp only [h1, h2, h3, hsp, if_neg, if_true, if_false, if_pos rfl,
        Bool.false_eq_true]
      exact ih (fun c2 hc hs => hws c2 (List.mem_cons_of_mem _ hc) hs)
  | case8 cur cs p h1 h2 h3 h4 ih =>
      intro hws
      rw [tokWPE_normal_cons, lexTok_normal_cons]
      have hsp : isspaceC '$' = false := by decide
      simp only [h1, h2, h3, h4, hsp, if_neg, if_true, if_false, if_pos rfl,
        Bool.false_eq_true]
      exact ih (fun c2 hc hs =>
        hws c2 (List.mem_cons_of_mem _ (expandVarAt_rest_mem env cur cs c2 hc)) hs)
  | case9 cur c cs h1 h2 h3 h4 h5 ih =>
      intro hws
      have hsp : isspaceC c = false := by
        cases hc : isspaceC c
        · rfl
        · rcases hws c (List.mem_cons_self c cs) hc with rfl | rfl
          · simp at h2
          · simp at h2
      rw [tokWPE_normal_cons, lexTok_normal_cons]
      simp only [h1, h2, h3, h4, h5, hsp, if_neg, if_false, Bool.false_eq_true]
      exact ih (fun c2 hc hs => hws c2 (List.mem_cons_of_mem _ hc) hs)
  | case10 cur cs ih =>
      intro hws
      rw [tokWPE_inSingle_cons, lexTok_inSingle_cons]
      simp only [if_pos rfl]
      exact ih (fun c2 hc hs => hws c2 (List.mem_cons_of_mem _ hc) hs)
  | case11 cur c cs h1 ih =>
      intro hws
      rw [tokWPE_inSingle_cons, lexTok_inSingle_cons]
      simp only [h1, if_neg, if_false]
      exact ih (fun c2 hc hs => hws c2 (List.mem_cons_of_mem _ hc) hs)
  | case12 cur cs ih =>
      intro hws
      rw [tokWPE_inDouble_cons, lexTok_inDouble_cons]
      simp only [if_pos rfl]
      exact ih (fun c2 hc hs => hws c2 (List.mem_cons_of_mem _ hc) hs)
  | case13 cur cs p h1 ih =>
      intro hws
      rw [tokWPE_inDouble_cons, lexTok_inDouble_cons]
      simp only [h1, if_neg, if_false, if_pos rfl]
      exact ih (fun c2 hc hs =>
        hws c2 (List.mem_cons_of_mem _ (expandVarAt_rest_mem env cur cs c2 hc)) hs)
  | case14 cur c cs h1 h2 ih =>
      intro hws
      rw [tokWPE_inDouble_cons, lexTok_inDouble_cons]
      simp only [h1, h2, if_neg, if_false]
      exact ih (fun c2 hc hs => hws c2 (List.mem_cons_of_mem _ hc) hs)

theorem wordsOk_tail {t : Token} {ts : List Token}
    (h : wordsOk (t :: ts)) : wordsOk ts :=
  fun w hw => h w (List.mem_cons_of_mem t hw)

theorem lastOk_tail {t : Token} {ts : List Token}
    (h : lastOk (t :: ts)) : lastOk ts := by
  cases ts with
  | nil => simp [lastOk]
  | cons y ys =>
      unfold lastOk at h ⊢
      rwa [List.getLast?_cons_cons] at h

theorem parseAux_eq_splitStagesAux (ts : List Token) :
    ∀ cur, wordsOk ts → lastOk ts → (cur ≠ [] ∨ ts ≠ []) →
      parseAux true cur ts = splitStagesAux cur (ts.map tokText) := by
  induction ts with
  | nil =>
      intro cur _ _ hor
      rcases hor with h | h
      · simp [parseAux, splitStagesAux, h]
      · simp at h
  | cons t ts2 ih =>
      intro cur hw hl _
      cases t with
      | pipe =>
          rw [List.map_cons]
          show parseAux true cur (.pipe :: ts2)
              = splitStagesAux cur (tokText .pipe :: ts2.map tokText)
          rw [show tokText .pipe = ['|'] from rfl, splitStagesAux_cons,
            if_pos rfl]
          by_cases hc : cur = []
          · simp [parseAux, hc]
          · have hts2 : ts2 ≠ [] := by
              intro h0
              subst h0
              exact hl (by simp [List.getLast?])
            simp only [parseAux, hc, if_neg, if_false, if_pos rfl, if_true]
            rw [ih [] (wordsOk_tail hw) (lastOk_tail hl) (Or.inr hts2)]
      | word w =>
          have hww : w ≠ ['|'] := hw w (List.mem_cons_self _ ts2)
          rw [List.map_cons]
          show parseAux true (cur ++ [w]) ts2
              = splitStagesAux cur (tokText (.word w) :: ts2.map tokText)
          rw [show tokText (.word w) = w from rfl, splitStagesAux_cons,
            if_neg hww]
          exact ih (cur ++ [w]) (wordsOk_tail hw) (lastOk_tail hl)
            (Or.inl (by simp))

theorem parseTokens_eq_splitStages (ts : List Token)
    (hw : wordsOk ts) (hl : lastOk ts) :
    parseTokens ts = splitStages (ts.map tokText) := by
  cases ts with
  | nil => rfl
  | cons t ts2 =>
      cases t with
      | pipe =>
          simp [parseTokens, parseAux, splitStages, splitStagesAux, tokText]
      | word w =>
          have hww : w ≠ ['|'] := hw w (List.mem_cons_self _ ts2)
          show parseAux true ([] ++ [w]) ts2 = _
          rw [List.map_cons, show tokText (.word w) = w from rfl]
          unfold splitStages
          rw [splitStagesAux_cons, if_neg hww]
          exact parseAux_eq_splitStagesAux ts2 ([] ++ [w]) (wordsOk_tail hw)
            (lastOk_tail hl) (Or.inl (by simp))

/-- C10 counterexample: the two front ends genuinely disagree.  On
`'|'` the inline path fails with an empty-stage error while the
class-based path accepts the quoted pipe as a one-word stage; on
`a<CR>b` the inline path splits at the carriage return (`isspace`) while
the class lexer, which only splits at space and tab, keeps one word; on
the trailing-pipe line `a |` the inline path silently drops the empty
final stage while `Parser::parse` rejects the line. -/
theorem C10_counterexample :
    (inlineFrontEnd [] (str "'|'") = none ∧
       classFrontEnd [] (str "'|'") = some [[str "|"]]) ∧
    (inlineFrontEnd [] (str "a\rb") = some [[str "a", str "b"]] ∧
       classFrontEnd [] (str "a\rb") = some [[str "a\rb"]]) ∧
    (inlineFrontEnd [] (str "a |") = some [[str "a"]] ∧
       classFrontEnd [] (str "a |") = none) := by
  refine ⟨⟨?_, ?_⟩, ⟨?_, ?_⟩, ⟨?_, ?_⟩⟩
  · simp [inlineFrontEnd, tokenizeWithPipesAndExpansion, str, tokWPE, emit,
      isspaceC, expandVarAt, splitStages, splitStagesAux]
  · simp [classFrontEnd, lexTokenize, str, lexTok, lexEmit, expandVarAt,
      parseTokens, parseAux]
  · simp [inlineFrontEnd, tokenizeWithPipesAndExpansion, str, tokWPE, emit,
      isspaceC, expandVarAt, splitStages, splitStagesAux]
  · simp [classFrontEnd, lexTokenize, str, lexTok, lexEmit, expandVarAt,
      parseTokens, parseAux]
  · simp [inlineFrontEnd, tokenizeWithPipesAndExpansion, str, tokWPE, emit,
      isspaceC, expandVarAt, splitStages, splitStagesAux]
  · simp [classFrontEnd, lexTokenize, str, lexTok, lexEmit, expandVarAt,
      parseTokens, parseAux]

/-- C10 as amended: the class-based front end (`Lexer::tokenize` then
`Parser::parse`) and the inline one (inline tokenizer then the stage
loop of `executeLine`) agree — same stage list, and each fails exactly
when the other does — on every line and Environment such that (i) every
whitespace character of the line is a space or a tab (the lexer splits
only at those, the inline tokenizer at every `isspace` character),
(ii) no produced word's text is exactly `|` (such a word is a separator
for the inline path only), and (iii) the token sequence does not end
with a pipe (the inline path silently accepts a trailing pipe). -/
theorem C10_front_end_agreement (env : Env) (line : List Char)
    (hws : ∀ c ∈ line, isspaceC c = true → c = ' ' ∨ c = '\t')
    (hts : ∀ ts, lexTokenize env line = some ts → wordsOk ts ∧ lastOk ts) :
    inlineFrontEnd env line = classFrontEnd env line := by
  unfold inlineFrontEnd classFrontEnd
  rw [show tokenizeWithPipesAndExpansion env line
      = (lexTokenize env line).map (List.map tokText) from
    tokWPE_eq_lexTok env .normal [] line hws]
  cases hlex : lexTokenize env line with
  | none => rfl
  | some ts =>
      obtain ⟨hw, hl⟩ := hts ts hlex
      simp only [Option.map_some']
      exact (parseTokens_eq_splitStages ts hw hl).symm

/-- Witness for C10 as amended at a concrete input: on `a 'x' | b` the
two front ends produce the same two-stage pipeline. -/
theorem C10_front_end_agreement_witness :
    inlineFrontEnd [] (str "a 'x' | b") = classFrontEnd [] (str "a 'x' | b") ∧
    classFrontEnd [] (str "a 'x' | b")
      = some [[str "a", str "x"], [str "b"]] := by
  constructor
  · refine C10_front_end_agreement [] (str "a 'x' | b") (by decide) ?_
    intro ts h
    have hlex : lexTokenize [] (str "a 'x' | b")
        = some [Token.word (str "a"), Token.word (str "x"), Token.pipe,
            Token.word (str "b")] := by
      simp [lexTokenize, str, lexTok, lexEmit, expandVarAt]
    rw [hlex] at h
    cases h
    constructor
    · intro w hwmem
      simp only [List.mem_cons, List.not_mem_nil, or_false] at hwmem
      rcases hwmem with h1 | h1 | h1 | h1 <;> first
        | (cases h1; decide)
        | (simp at h1)
    · unfold lastOk
      decide
  · simp [classFrontEnd, lexTokenize, str, lexTok, lexEmit, expandVarAt,
      parseTokens, parseAux]

end Minishell
